import Mathlib

/-!
Shallow embedding of the cosigning-witness core of litetlog:
the checkpoint codec (`internal/tlogx`), the cosignature-v1 signer, and the
add-checkpoint pipeline of the `witness` package, together with proofs of the
specification claims about them.

Go strings are modelled as `List Char`; the inputs of interest are ASCII, for
which Go byte length and character count coincide.  Machine integers (`int64`)
are modelled as `Int` with explicit bounds where Go's `strconv` enforces them.
Bytes are `Nat` with an explicit `< 256` bound where it matters.
-/

abbrev GoStr := List Char

/-- Number of newline characters in a string, `strings.Count(text, "\n")`. -/
def countNl (s : GoStr) : Nat := s.count '\n'

/-- Model of `strings.HasSuffix(text, "\n")`. -/
def hasSuffixNl (s : GoStr) : Bool := decide (s.getLast? = some '\n')

/-- Split at the first newline: the found case of `strings.Cut(s, "\n")`.
Returns `none` when the string has no newline. -/
def cutNl : GoStr → Option (GoStr × GoStr)
  | [] => none
  | c :: cs =>
    if c = '\n' then some ([], cs)
    else match cutNl cs with
      | none => none
      | some (b, a) => some (c :: b, a)

/-- First line of a string: `origin, _, _ := strings.Cut(noteBytes, "\n")`. -/
def firstLine (s : GoStr) : GoStr :=
  match cutNl s with
  | some (b, _) => b
  | none => s

/-- Model of `strings.SplitN(text, "\n", 4)`: the first three lines and the
remainder.  When the text has at least three newlines (the only case in which
`ParseCheckpoint` uses it) all three cuts succeed and the components are
exactly Go's `lines[0] .. lines[3]`. -/
def splitNl4 (s : GoStr) : GoStr × GoStr × GoStr × GoStr :=
  match cutNl s with
  | none => (s, [], [], [])
  | some (l0, r0) =>
    match cutNl r0 with
    | none => (l0, r0, [], [])
    | some (l1, r1) =>
      match cutNl r1 with
      | none => (l0, l1, r1, [])
      | some (l2, r2) => (l0, l1, l2, r2)

/-- Model of `strings.Split(s, "\n")`: the full split; always non-empty. -/
def splitNlAll : GoStr → List GoStr
  | [] => [[]]
  | c :: cs =>
    if c = '\n' then [] :: splitNlAll cs
    else match splitNlAll cs with
      | [] => [[c]]
      | p :: ps => (c :: p) :: ps

/-- The extension-checking loop of `ParseCheckpoint`, character by character.
The Boolean state records whether we are inside a line that has seen at least
one character but no terminating newline yet.  `extOkAux false rest` succeeds
exactly when the Go loop over `rest` does: every line of `rest` is non-empty
and terminated by a newline. -/
def extOkAux : Bool → GoStr → Bool
  | inLine, [] => !inLine
  | inLine, c :: cs =>
    if c = '\n' then inLine && extOkAux false cs
    else extOkAux true cs

/-- The extension check of `ParseCheckpoint` on `lines[3]`. -/
def extOk (rest : GoStr) : Bool := extOkAux false rest

/-- Decimal digit character for a digit value below ten. -/
def digitChar (d : Nat) : Char := Char.ofNat (48 + d)

/-- Value of an ASCII decimal digit character. -/
def digitVal (c : Char) : Option Nat :=
  if '0' ≤ c ∧ c ≤ '9' then some (c.toNat - 48) else none

/-- Accumulating base-10 parse of a digit string. -/
def parseDigitsAux (acc : Nat) : GoStr → Option Nat
  | [] => some acc
  | c :: cs =>
    match digitVal c with
    | none => none
    | some d => parseDigitsAux (acc * 10 + d) cs

/-- Parse a non-empty string of ASCII decimal digits. -/
def parseDigits (s : GoStr) : Option Nat :=
  match s with
  | [] => none
  | _ => parseDigitsAux 0 s

/-- Model of `strconv.ParseInt(s, 10, 64)`: optional sign, at least one
digit, and the value must fit in a signed 64-bit integer (on overflow Go
returns `ErrRange`, which every caller in scope treats as failure). -/
def goParseInt64 (s : GoStr) : Option Int :=
  match s with
  | [] => none
  | c :: rest =>
    if c = '+' then
      match parseDigits rest with
      | none => none
      | some v => if v ≤ 2 ^ 63 - 1 then some (v : Int) else none
    else if c = '-' then
      match parseDigits rest with
      | none => none
      | some v => if v ≤ 2 ^ 63 then some (-(v : Int)) else none
    else
      match parseDigits (c :: rest) with
      | none => none
      | some v => if v ≤ 2 ^ 63 - 1 then some (v : Int) else none

/-- Fuel-based digit emission, most significant first; the fuel only bounds
the recursion depth and any fuel at least the digit count gives the digits. -/
def formatNatAux : Nat → Nat → GoStr
  | 0, _ => []
  | fuel + 1, n =>
    if n = 0 then [] else formatNatAux fuel (n / 10) ++ [digitChar (n % 10)]

/-- Decimal representation of a natural number (`strconv.FormatInt` for
non-negative values): most significant digit first, no leading zeros. -/
def formatNat (n : Nat) : GoStr :=
  if n = 0 then ['0'] else formatNatAux (n + 1) n

/-- Model of `strconv.FormatInt(n, 10)` / `fmt.Sprintf("%d", n)` on `int64`. -/
def formatInt (n : Int) : GoStr :=
  if n < 0 then '-' :: formatNat (-n).toNat else formatNat n.toNat

/-- Character of the standard base64 alphabet at index `d < 64`. -/
def b64Char (d : Nat) : Char :=
  if d < 26 then Char.ofNat (65 + d)
  else if d < 52 then Char.ofNat (97 + (d - 26))
  else if d < 62 then Char.ofNat (48 + (d - 52))
  else if d = 62 then '+'
  else '/'

/-- Index of a character in the standard base64 alphabet. -/
def b64Index (c : Char) : Option Nat :=
  if 'A' ≤ c ∧ c ≤ 'Z' then some (c.toNat - 65)
  else if 'a' ≤ c ∧ c ≤ 'z' then some (c.toNat - 71)
  else if '0' ≤ c ∧ c ≤ '9' then some (c.toNat + 4)
  else if c = '+' then some 62
  else if c = '/' then some 63
  else none

/-- Model of `base64.StdEncoding.EncodeToString`: three bytes to four
characters, with `=` padding for a final group of one or two bytes. -/
def base64Encode : List Nat → GoStr
  | [] => []
  | [b1] => [b64Char (b1 / 4), b64Char (b1 % 4 * 16), '=', '=']
  | [b1, b2] => [b64Char (b1 / 4), b64Char (b1 % 4 * 16 + b2 / 16), b64Char (b2 % 16 * 4), '=']
  | b1 :: b2 :: b3 :: rest =>
    b64Char (b1 / 4) :: b64Char (b1 % 4 * 16 + b2 / 16) ::
      b64Char (b2 % 16 * 4 + b3 / 64) :: b64Char (b3 % 64) :: base64Encode rest

/-- Go's base64 decoder skips carriage returns and newlines anywhere in the
input. -/
def stripNl (s : GoStr) : GoStr := s.filter (fun c => !(c = '\r' || c = '\n'))

/-- Strict base64 decoding of a newline-free string: full four-character
quanta, `=` padding only in the final quantum, which may encode one or two
bytes.  Like Go, unused trailing bits are not required to be zero. -/
def base64DecodeQuanta : GoStr → Option (List Nat)
  | [] => some []
  | c1 :: c2 :: c3 :: c4 :: rest =>
    if c3 = '=' ∧ c4 = '=' ∧ rest = [] then
      match b64Index c1, b64Index c2 with
      | some d1, some d2 => some [d1 * 4 + d2 / 16]
      | _, _ => none
    else if c4 = '=' ∧ rest = [] then
      match b64Index c1, b64Index c2, b64Index c3 with
      | some d1, some d2, some d3 => some [d1 * 4 + d2 / 16, d2 % 16 * 16 + d3 / 4]
      | _, _, _ => none
    else
      match b64Index c1, b64Index c2, b64Index c3, b64Index c4 with
      | some d1, some d2, some d3, some d4 =>
        match base64DecodeQuanta rest with
        | some bs => some ((d1 * 4 + d2 / 16) :: (d2 % 16 * 16 + d3 / 4) :: (d3 % 4 * 64 + d4) :: bs)
        | none => none
      | _, _, _, _ => none
  | _ => none

/-- Model of `base64.StdEncoding.DecodeString`. -/
def base64Decode (s : GoStr) : Option (List Nat) := base64DecodeQuanta (stripNl s)

/-- The `tlogx.Checkpoint` struct: origin line, tree size (`int64`), tree
hash (32 bytes), and extension lines. -/
structure Checkpoint where
  origin : GoStr
  n : Int
  hash : List Nat
  extension : GoStr
deriving DecidableEq

/-- Model of `tlogx.ParseCheckpoint` (internal/tlogx/checkpoint): reject
oversized text, fewer than three newlines, or no trailing newline; split into
four parts; the size line must round-trip through `strconv` (`ParseInt`
succeeds, value non-negative, `FormatInt` reproduces the line); the hash line
must be base64 for exactly 32 bytes; the remainder must be empty or non-empty
newline-terminated lines. -/
def parseCheckpoint (text : GoStr) : Option Checkpoint :=
  if countNl text < 3 ∨ 1000000 < text.length then none
  else if ¬ hasSuffixNl text then none
  else
    match splitNl4 text with
    | (l0, l1, l2, l3) =>
      match goParseInt64 l1 with
      | none => none
      | some n =>
        if n < 0 ∨ l1 ≠ formatInt n then none
        else
          match base64Decode l2 with
          | none => none
          | some h =>
            if h.length ≠ 32 then none
            else if ¬ extOk l3 then none
            else some ⟨l0, n, h, l3⟩

/-- Model of `tlogx.MarshalCheckpoint`:
`fmt.Sprintf("%s\n%d\n%s\n%s", origin, n, base64(hash), extension)`. -/
def MarshalCheckpoint (c : Checkpoint) : GoStr :=
  c.origin ++ '\n' :: (formatInt c.n ++ '\n' :: (base64Encode c.hash ++ '\n' :: c.extension))

/-- The size-line condition as the spec words it: the line is the canonical
decimal representation of some non-negative integer (`format(n) == size_field`,
hence no leading zeros), with no bound on the value. -/
def specSizeFieldOk (s : GoStr) : Bool :=
  match parseDigits s with
  | none => false
  | some m => decide (s = formatNat m)

/-- The size-line condition amended with the bound `strconv.ParseInt(_, 10, 64)`
actually enforces: the value must also be representable in `int64`. -/
def specSizeFieldOk64 (s : GoStr) : Bool :=
  match parseDigits s with
  | none => false
  | some m => decide (s = formatNat m) && decide (m < 2 ^ 63)

/-- The hash-line condition as the spec words it: standard padded base64
decoding to exactly 32 bytes. -/
def specHashFieldOk (s : GoStr) : Bool :=
  match base64Decode s with
  | none => false
  | some h => decide (h.length = 32)

/-- The malformedness condition of claim C5, as stated: text too long, fewer
than three newlines, no trailing newline, bad size field (canonical decimal of
a non-negative integer required, no size bound), bad hash field, or bad
extension. -/
def specMalformedClaim (t : GoStr) : Bool :=
  decide (1000000 < t.length) || decide (countNl t < 3) || !hasSuffixNl t ||
    (match splitNl4 t with
     | (_, l1, l2, l3) => !specSizeFieldOk l1 || !specHashFieldOk l2 || !extOk l3)

/-- The malformedness condition of claim C5, amended: the size field must in
addition have a value below `2^63` (the `int64` bound `strconv` enforces). -/
def specMalformedAmended (t : GoStr) : Bool :=
  decide (1000000 < t.length) || decide (countNl t < 3) || !hasSuffixNl t ||
    (match splitNl4 t with
     | (_, l1, l2, l3) => !specSizeFieldOk64 l1 || !specHashFieldOk l2 || !extOk l3)

/-- Big-endian 8-byte encoding of an unsigned 64-bit value
(`binary.BigEndian.AppendUint64`). -/
def beU64 (t : Nat) : List Nat :=
  [t / 2 ^ 56 % 256, t / 2 ^ 48 % 256, t / 2 ^ 40 % 256, t / 2 ^ 32 % 256,
   t / 2 ^ 24 % 256, t / 2 ^ 16 % 256, t / 2 ^ 8 % 256, t % 256]

/-- Big-endian read of bytes (`binary.BigEndian.Uint64` on 8 bytes). -/
def readBeU64 (l : List Nat) : Nat := l.foldl (fun a b => a * 256 + b) 0

/-- Model of `tlogx.formatCosignatureV1`: parse the message as a checkpoint
and build the canonical signed string
`"cosignature/v1\ntime <t>\n<origin>\n<size>\n<base64(hash)>\n"`.
Only the first three checkpoint lines enter; the extension does not. -/
def formatCosignatureV1 (t : Nat) (msg : GoStr) : Option GoStr :=
  match parseCheckpoint msg with
  | none => none
  | some c =>
    some ("cosignature/v1\ntime ".data ++ formatNat t ++
      '\n' :: (c.origin ++ '\n' :: (formatInt c.n ++ '\n' :: (base64Encode c.hash ++ ['\n']))))

/-- Model of the `sign` closure of `tlogx.NewCosignatureV1Signer`: `t` models
`uint64(time.Now().Unix())`, `edSign` the Ed25519 signing operation of the
underlying `crypto.Signer`.  The blob is `BE_u64(t) ‖ raw_sig`. -/
def cosigSign (edSign : GoStr → List Nat) (t : Nat) (msg : GoStr) : Option (List Nat) :=
  match formatCosignatureV1 t msg with
  | none => none
  | some m => some (beU64 t ++ edSign m)

/-- Model of the `verify` closure of `tlogx.NewCosignatureV1Signer`: reject
blobs that are not exactly 8 + 64 bytes, read the embedded timestamp,
reconstruct the signed string, and verify with Ed25519 (`edVerify`). -/
def cosigVerify (edVerify : GoStr → List Nat → Bool) (msg : GoStr) (sig : List Nat) : Bool :=
  if sig.length ≠ 8 + 64 then false
  else
    match formatCosignatureV1 (readBeU64 (sig.take 8)) msg with
    | none => false
    | some m => edVerify m (sig.drop 8)

/-- Model of `bytes.Cut(body, []byte("\n\n"))` in the found case: the parts
before and after the first occurrence of a double newline. -/
def cut2Nl : GoStr → Option (GoStr × GoStr)
  | [] => none
  | '\n' :: '\n' :: rest => some ([], rest)
  | c :: cs =>
    match cut2Nl cs with
    | none => none
    | some (b, a) => some (c :: b, a)

/-- Model of `strings.CutPrefix(line, "old ")` in the found case. -/
def cutOld (s : GoStr) : Option GoStr :=
  if s.take 4 = "old ".data then some (s.drop 4) else none

/-- Error values of the `witness` package.  `conflict` is `*conflictError`
(carrying the known tree size); `malformedCheckpoint` is the plain
`errors.New("malformed checkpoint")` value that `tlogx.ParseCheckpoint`
returns — a distinct value from `errBadRequest`; `noteError` stands for any
other `note.Open` failure that is returned verbatim. -/
inductive WErr where
  | unknownLog
  | invalidSignature
  | badRequest
  | proofErr
  | conflict (known : Int)
  | malformedCheckpoint
  | noteError
deriving DecidableEq

/-- Outcome of `note.Open(noteBytes, verifiers)`, which is external library
code: a verified note text, a signature-level failure
(`*note.UnverifiedNoteError` or `*note.InvalidSignatureError`), or any other
error. -/
inductive NoteOpen where
  | verified (text : GoStr)
  | sigFailure
  | otherError
deriving DecidableEq

/-- The per-origin content of the `log` table: `(tree_size, tree_hash)`.
The database stores the hash as base64 text and `getLog` decodes it; the
encoding round-trips, so the model stores the bytes directly. -/
abbrev Store := GoStr → Option (Int × List Nat)

/-- External collaborators of `processAddCheckpointRequest`:
`parseProofHash` models `tlog.ParseHash`; `keysOk` models whether `getKeys`
finds verifier keys for an origin; `openNote` models `note.Open` against those
keys; `checkTree` models `tlog.CheckTree(proof, newSize, newHash, oldSize,
oldHash)`; `signedSigs` models the signature block that `note.Sign` plus
`splitSignatures` produce for a note text. -/
structure PipelineEnv where
  parseProofHash : GoStr → Option (List Nat)
  keysOk : GoStr → Bool
  openNote : GoStr → NoteOpen
  checkTree : List (List Nat) → Int → List Nat → Int → List Nat → Bool
  signedSigs : GoStr → GoStr

/-- Model of `Witness.getLog`: row lookup; a missing row is `errUnknownLog`. -/
def getLog (s : Store) (origin : GoStr) : Except WErr (Int × List Nat) :=
  match s origin with
  | none => Except.error WErr.unknownLog
  | some r => Except.ok r

/-- Model of `Witness.checkConsistency`: reject `oldSize > newSize` before any
store lookup; then compare the stored size with `oldSize`; accept immediately
at `oldSize == 0`; otherwise defer to `tlog.CheckTree`. -/
def checkConsistency (ct : List (List Nat) → Int → List Nat → Int → List Nat → Bool)
    (s : Store) (origin : GoStr) (oldSize newSize : Int) (newHash : List Nat)
    (proofHashes : List (List Nat)) : Except WErr Unit :=
  if oldSize > newSize then Except.error WErr.badRequest
  else
    match getLog s origin with
    | Except.error e => Except.error e
    | Except.ok (knownSize, oldHash) =>
      if knownSize ≠ oldSize then Except.error (WErr.conflict knownSize)
      else if oldSize = 0 then Except.ok ()
      else if ct proofHashes newSize newHash oldSize oldHash then Except.ok ()
      else Except.error WErr.proofErr

/-- The conditional UPDATE of `persistTreeHead`:
`UPDATE log SET tree_size = ?, tree_hash = ? WHERE origin = ? AND tree_size = ?`.
`origin` is the primary key, so the statement changes one row when the stored
size equals `oldSize` and zero rows otherwise; the returned number is
`db.Changes()`. -/
def casUpdate (s : Store) (origin : GoStr) (oldSize newSize : Int) (newHash : List Nat) :
    Store × Nat :=
  match s origin with
  | none => (s, 0)
  | some (sz, _) =>
    if sz = oldSize then
      ((fun o => if o = origin then some (newSize, newHash) else s o), 1)
    else (s, 0)

/-- Model of `Witness.persistTreeHead`: run the conditional UPDATE; if it did
not change exactly one row, re-read the current size and return the conflict
error carrying it. -/
def persistTreeHead (s : Store) (origin : GoStr) (oldSize newSize : Int) (newHash : List Nat) :
    Store × Except WErr Unit :=
  match casUpdate s origin oldSize newSize newHash with
  | (s2, changes) =>
    if changes ≠ 1 then
      match getLog s2 origin with
      | Except.error e => (s2, Except.error e)
      | Except.ok (knownSize, _) => (s2, Except.error (WErr.conflict knownSize))
    else (s2, Except.ok ())

/-- Model of `Witness.processAddCheckpointRequest`.  `s1` is the store
snapshot the consistency check reads; `s2` is the live store the commit runs
against — letting them differ captures a concurrent advance between step 6
and step 7, the race `testingOnlyStallRequest` exercises.  Returns the result
(the signature block on success) and the store after the request. -/
def processAddCheckpointRequest (env : PipelineEnv) (s1 s2 : Store) (body : GoStr) :
    Except WErr GoStr × Store :=
  match cut2Nl body with
  | none => (Except.error WErr.badRequest, s2)
  | some (pre, noteBytes) =>
    match splitNlAll pre with
    | [] => (Except.error WErr.badRequest, s2)
    | l0 :: preRest =>
      match cutOld l0 with
      | none => (Except.error WErr.badRequest, s2)
      | some sizeStr =>
        match goParseInt64 sizeStr with
        | none => (Except.error WErr.badRequest, s2)
        | some oldSize =>
          if oldSize < 0 then (Except.error WErr.badRequest, s2)
          else
            match preRest.mapM env.parseProofHash with
            | none => (Except.error WErr.badRequest, s2)
            | some proofHashes =>
              if ¬ env.keysOk (firstLine noteBytes) then (Except.error WErr.unknownLog, s2)
              else
                match env.openNote noteBytes with
                | NoteOpen.sigFailure => (Except.error WErr.invalidSignature, s2)
                | NoteOpen.otherError => (Except.error WErr.noteError, s2)
                | NoteOpen.verified text =>
                  match parseCheckpoint text with
                  | none => (Except.error WErr.malformedCheckpoint, s2)
                  | some c =>
                    match checkConsistency env.checkTree s1 c.origin oldSize c.n c.hash
                        proofHashes with
                    | Except.error e => (Except.error e, s2)
                    | Except.ok () =>
                      match persistTreeHead s2 c.origin oldSize c.n c.hash with
                      | (s3, Except.error e) => (Except.error e, s3)
                      | (s3, Except.ok ()) => (Except.ok (env.signedSigs text), s3)

/-- An HTTP response: status code, optional explicit Content-Type, body. -/
structure HttpResponse where
  status : Nat
  contentType : Option GoStr
  body : GoStr
deriving DecidableEq

/-- Model of `Witness.serveAddCheckpoint`: a `*conflictError` becomes
`409` with `Content-Type: text/x.tlog.size` and body `"<known>\n"`; the
sentinel errors map to 403/400/422; every other error — including the
unmapped `"malformed checkpoint"` error — becomes 500 via `http.Error`; on
success the signature block is the 200 body. -/
def serveAddCheckpoint (env : PipelineEnv) (s1 s2 : Store) (body : GoStr) :
    HttpResponse × Store :=
  match processAddCheckpointRequest env s1 s2 body with
  | (res, s3) =>
    match res with
    | Except.ok cosig => (⟨200, none, cosig⟩, s3)
    | Except.error (WErr.conflict k) =>
      (⟨409, some "text/x.tlog.size".data, formatInt k ++ ['\n']⟩, s3)
    | Except.error WErr.unknownLog => (⟨403, none, "unknown log\n".data⟩, s3)
    | Except.error WErr.invalidSignature => (⟨403, none, "invalid signature\n".data⟩, s3)
    | Except.error WErr.badRequest => (⟨400, none, "invalid input\n".data⟩, s3)
    | Except.error WErr.proofErr => (⟨422, none, "bad consistency proof\n".data⟩, s3)
    | Except.error WErr.malformedCheckpoint => (⟨500, none, "malformed checkpoint\n".data⟩, s3)
    | Except.error WErr.noteError => (⟨500, none, "note error\n".data⟩, s3)

/-- A sequence of add-checkpoint requests applied to the live store in commit
order.  Each request carries its own consistency-check snapshot `s1`, which
may be arbitrarily stale relative to the live store — this models any
interleaving of the read and commit steps of concurrent requests. -/
def runRequests (env : PipelineEnv) (reqs : List (Store × GoStr)) (s : Store) : Store :=
  match reqs with
  | [] => s
  | (s1, body) :: rest =>
    runRequests env rest (processAddCheckpointRequest env s1 s body).2

/-- The 32-byte all-zero tree hash, used as a concrete value below. -/
def zeroHash : List Nat := List.replicate 32 0

/-- A concrete log origin. -/
def origin0 : GoStr := "example.com/origin".data

/-- Modelled from the spec: the behavior section 4.D fixes for
`tlog.CheckTree` (golang.org/x/mod/sumdb/tlog, external library code not in
this repository) at the degenerate case `old_size == new_size` — accept
exactly when the proof is empty and the hashes agree.  Proper sub-tree cases
are not needed by the theorems below; this instance rejects them. -/
def ctModel : List (List Nat) → Int → List Nat → Int → List Nat → Bool :=
  fun proofHashes newSize newHash oldSize oldHash =>
    decide (oldSize = newSize) && decide (proofHashes = ([] : List (List Nat))) &&
      decide (newHash = oldHash)

/-- A concrete signature block, standing for the output of `note.Sign` plus
`splitSignatures`. -/
def sigLine0 : GoStr := "— example.com/witness AAAA\n".data

/-- A concrete checkpoint body of size 2 over `origin0`. -/
def text2 : GoStr := "example.com/origin\n2\n".data ++ base64Encode zeroHash ++ ['\n']

/-- A concrete checkpoint body of size 3 over `origin0`. -/
def text3 : GoStr := "example.com/origin\n3\n".data ++ base64Encode zeroHash ++ ['\n']

/-- A concrete checkpoint body of size 7 over `origin0`. -/
def text7 : GoStr := "example.com/origin\n7\n".data ++ base64Encode zeroHash ++ ['\n']

/-- A note body that is not a valid checkpoint (a single line). -/
def textBad : GoStr := "garbage\n".data

/-- Environment for the conflict scenarios: signatures verify and the note
text is the size-7 checkpoint; the consistency predicate accepts. -/
def envC1 : PipelineEnv :=
  ⟨fun _ => some zeroHash, fun _ => true, fun _ => NoteOpen.verified text7,
   fun _ _ _ _ _ => true, fun _ => sigLine0⟩

/-- Environment for the idempotent-resubmit scenario: the note text is the
size-3 checkpoint and the consistency predicate is the spec-modelled one. -/
def envC3 : PipelineEnv :=
  ⟨fun _ => some zeroHash, fun _ => true, fun _ => NoteOpen.verified text3,
   ctModel, fun _ => sigLine0⟩

/-- Environment for the malformed-checkpoint scenario: the note verifies but
its text is not a checkpoint. -/
def envC8 : PipelineEnv :=
  ⟨fun _ => some zeroHash, fun _ => true, fun _ => NoteOpen.verified textBad,
   ctModel, fun _ => sigLine0⟩

/-- A store with `origin0` at size 5. -/
def stSize5 : Store := fun o => if o = origin0 then some (5, zeroHash) else none

/-- A store with `origin0` at size 3. -/
def stSize3 : Store := fun o => if o = origin0 then some (3, zeroHash) else none

/-- A store with `origin0` at size 0 (a freshly added log). -/
def stSize0 : Store := fun o => if o = origin0 then some (0, zeroHash) else none

/-- A request claiming `old 3` (no proof lines). -/
def bodyOld3 : GoStr := "old 3\n\n".data ++ text7

/-- A request claiming `old 3` whose note text is the size-3 checkpoint. -/
def bodyResubmit : GoStr := "old 3\n\n".data ++ text3

/-- A request claiming `old 0` whose note text is not a checkpoint. -/
def bodyBad : GoStr := "old 0\n\n".data ++ textBad

/-- The claim-C5 input: the size line is the canonical decimal of `2^63`,
which is a non-negative integer but overflows `int64`. -/
def textOverflow : GoStr := "o\n9223372036854775808\n".data ++ base64Encode zeroHash ++ ['\n']

theorem cutNl_append (a r : GoStr) (h : '\n' ∉ a) : cutNl (a ++ '\n' :: r) = some (a, r) := by
  induction a with
  | nil => simp [cutNl]
  | cons c a ih =>
    have hc : c ≠ '\n' := fun hc => h (hc ▸ List.mem_cons_self c a)
    have ha : '\n' ∉ a := fun hm => h (List.mem_cons_of_mem c hm)
    simp [cutNl, hc, ih ha]

theorem splitNl4_parts (a b c d : GoStr) (ha : '\n' ∉ a) (hb : '\n' ∉ b) (hc : '\n' ∉ c) :
    splitNl4 (a ++ '\n' :: (b ++ '\n' :: (c ++ '\n' :: d))) = (a, b, c, d) := by
  simp [splitNl4, cutNl_append _ _ ha, cutNl_append _ _ hb, cutNl_append _ _ hc]

theorem digitVal_digitChar : ∀ d, d < 10 → digitVal (digitChar d) = some d := by decide

theorem digitChar_notSpecial :
    ∀ d, d < 10 → digitChar d ≠ '\n' ∧ digitChar d ≠ '+' ∧ digitChar d ≠ '-' := by decide

theorem parseDigitsAux_append (acc : Nat) (l1 l2 : GoStr) :
    parseDigitsAux acc (l1 ++ l2) =
      match parseDigitsAux acc l1 with
      | none => none
      | some a => parseDigitsAux a l2 := by
  induction l1 generalizing acc with
  | nil => simp [parseDigitsAux]
  | cons c cs ih =>
    simp only [List.cons_append, parseDigitsAux]
    cases digitVal c with
    | none => simp
    | some d => simp [ih]

theorem parseDigitsAux_digits (L : List Nat) (hL : ∀ d ∈ L, d < 10) (acc : Nat) :
    parseDigitsAux acc ((L.map digitChar).reverse) =
      some (acc * 10 ^ L.length + Nat.ofDigits 10 L) := by
  induction L generalizing acc with
  | nil => simp [parseDigitsAux, Nat.ofDigits]
  | cons d L ih =>
    have hd : d < 10 := hL d (List.mem_cons_self d L)
    have hL2 : ∀ x ∈ L, x < 10 := fun x hx => hL x (List.mem_cons_of_mem d hx)
    simp only [List.map_cons, List.reverse_cons, parseDigitsAux_append, ih hL2 acc]
    simp only [parseDigitsAux, digitVal_digitChar d hd, Nat.ofDigits_cons, List.length_cons]
    congr 1
    ring

theorem formatNatAux_eq_digits (fuel : Nat) :
    ∀ n, n ≤ fuel → formatNatAux fuel n = ((Nat.digits 10 n).map digitChar).reverse := by
  induction fuel with
  | zero =>
    intro n hn
    have : n = 0 := Nat.le_zero.mp hn
    subst this
    simp [formatNatAux]
  | succ fuel ih =>
    intro n hn
    by_cases h : n = 0
    · subst h
      simp [formatNatAux]
    · rw [formatNatAux, if_neg h]
      rw [Nat.digits_def' (by norm_num : 1 < 10) (Nat.pos_of_ne_zero h)]
      have hdiv : n / 10 ≤ fuel := by
        have := Nat.div_lt_self (Nat.pos_of_ne_zero h) (by norm_num : 1 < 10)
        omega
      rw [ih (n / 10) hdiv]
      simp

theorem formatNat_eq_digits (n : Nat) :
    formatNat n = if n = 0 then ['0'] else ((Nat.digits 10 n).map digitChar).reverse := by
  rw [formatNat]
  by_cases h : n = 0
  · simp [h]
  · rw [if_neg h, if_neg h, formatNatAux_eq_digits (n + 1) n (by omega)]

theorem parseDigits_formatNat (n : Nat) : parseDigits (formatNat n) = some n := by
  by_cases h : n = 0
  · subst h; decide
  · have hd : Nat.digits 10 n ≠ [] := Nat.digits_ne_nil_iff_ne_zero.mpr h
    have hb : ∀ d ∈ Nat.digits 10 n, d < 10 := fun d hdm =>
      Nat.digits_lt_base (by norm_num) hdm
    have hne : ((Nat.digits 10 n).map digitChar).reverse ≠ [] := by
      simp [hd]
    rw [formatNat_eq_digits, if_neg h]
    cases hcons : ((Nat.digits 10 n).map digitChar).reverse with
    | nil => exact absurd hcons hne
    | cons c cs =>
      have h2 : parseDigitsAux 0 (c :: cs) = some n := by
        rw [← hcons]
        have := parseDigitsAux_digits (Nat.digits 10 n) hb 0
        rw [Nat.ofDigits_digits] at this
        simpa using this
      exact h2

theorem formatNat_mem (n : Nat) : ∀ c ∈ formatNat n, ∃ d, d < 10 ∧ c = digitChar d := by
  intro c hc
  rw [formatNat_eq_digits] at hc
  by_cases h : n = 0
  · simp [h] at hc
    exact ⟨0, by norm_num, by rw [hc]; decide⟩
  · rw [if_neg h, List.mem_reverse, List.mem_map] at hc
    obtain ⟨d, hdm, hde⟩ := hc
    exact ⟨d, Nat.digits_lt_base (by norm_num) hdm, hde.symm⟩

theorem formatNat_ne_nil (n : Nat) : formatNat n ≠ [] := by
  rw [formatNat_eq_digits]
  by_cases h : n = 0
  · simp [h]
  · have hd : Nat.digits 10 n ≠ [] := Nat.digits_ne_nil_iff_ne_zero.mpr h
    simp [h, hd]

theorem formatNat_head (n : Nat) :
    ∃ d rest, d < 10 ∧ formatNat n = digitChar d :: rest := by
  cases hcons : formatNat n with
  | nil => exact absurd hcons (formatNat_ne_nil n)
  | cons c cs =>
    obtain ⟨d, hd, hde⟩ := formatNat_mem n c (by rw [hcons]; exact List.mem_cons_self c cs)
    exact ⟨d, cs, hd, by rw [hde]⟩

theorem formatNat_no_nl (n : Nat) : '\n' ∉ formatNat n := by
  intro hm
  obtain ⟨d, hd, hde⟩ := formatNat_mem n '\n' hm
  exact (digitChar_notSpecial d hd).1 hde.symm

theorem b64Index_b64Char : ∀ d, d < 64 → b64Index (b64Char d) = some d := by decide

theorem b64Char_notSpecial :
    ∀ d, d < 64 → b64Char d ≠ '\n' ∧ b64Char d ≠ '\r' ∧ b64Char d ≠ '=' := by decide

theorem base64Encode_mem (l : List Nat) (hl : ∀ b ∈ l, b < 256) :
    ∀ c ∈ base64Encode l, (∃ d, d < 64 ∧ c = b64Char d) ∨ c = '=' := by
  induction l using base64Encode.induct with
  | case1 => intro c hc; simp [base64Encode] at hc
  | case2 b1 =>
    intro c hc
    have h1 : b1 < 256 := hl b1 (by simp)
    simp only [base64Encode, List.mem_cons, List.not_mem_nil, or_false] at hc
    rcases hc with h | h | h | h
    · exact Or.inl ⟨b1 / 4, by omega, h⟩
    · exact Or.inl ⟨b1 % 4 * 16, by omega, h⟩
    · exact Or.inr h
    · exact Or.inr h
  | case3 b1 b2 =>
    intro c hc
    have h1 : b1 < 256 := hl b1 (by simp)
    have h2 : b2 < 256 := hl b2 (by simp)
    simp only [base64Encode, List.mem_cons, List.not_mem_nil, or_false] at hc
    rcases hc with h | h | h | h
    · exact Or.inl ⟨b1 / 4, by omega, h⟩
    · exact Or.inl ⟨b1 % 4 * 16 + b2 / 16, by omega, h⟩
    · exact Or.inl ⟨b2 % 16 * 4, by omega, h⟩
    · exact Or.inr h
  | case4 b1 b2 b3 rest ih =>
    intro c hc
    have h1 : b1 < 256 := hl b1 (by simp)
    have h2 : b2 < 256 := hl b2 (by simp)
    have h3 : b3 < 256 := hl b3 (by simp)
    have hrest : ∀ b ∈ rest, b < 256 := fun b hb => hl b (by simp [hb])
    simp only [base64Encode, List.mem_cons] at hc
    rcases hc with h | h | h | h | h
    · exact Or.inl ⟨b1 / 4, by omega, h⟩
    · exact Or.inl ⟨b1 % 4 * 16 + b2 / 16, by omega, h⟩
    · exact Or.inl ⟨b2 % 16 * 4 + b3 / 64, by omega, h⟩
    · exact Or.inl ⟨b3 % 64, by omega, h⟩
    · exact ih hrest c h

theorem base64Encode_no_nl (l : List Nat) (hl : ∀ b ∈ l, b < 256) :
    ∀ c ∈ base64Encode l, c ≠ '\n' ∧ c ≠ '\r' := by
  intro c hc
  rcases base64Encode_mem l hl c hc with ⟨d, hd, he⟩ | he
  · have := b64Char_notSpecial d hd
    exact ⟨he ▸ this.1, he ▸ this.2.1⟩
  · subst he
    exact ⟨by decide, by decide⟩

theorem stripNl_base64Encode (l : List Nat) (hl : ∀ b ∈ l, b < 256) :
    stripNl (base64Encode l) = base64Encode l := by
  rw [stripNl, List.filter_eq_self]
  intro c hc
  have := base64Encode_no_nl l hl c hc
  simp [this.1, this.2]

theorem base64DecodeQuanta_encode (l : List Nat) (hl : ∀ b ∈ l, b < 256) :
    base64DecodeQuanta (base64Encode l) = some l := by
  induction l using base64Encode.induct with
  | case1 => rfl
  | case2 b1 =>
    have h1 : b1 < 256 := hl b1 (by simp)
    have e1 := b64Index_b64Char (b1 / 4) (by omega)
    have e2 := b64Index_b64Char (b1 % 4 * 16) (by omega)
    simp only [base64Encode, base64DecodeQuanta, and_self, and_true, if_pos, e1, e2]
    simp only [Option.some.injEq, List.cons.injEq, and_true]
    omega
  | case3 b1 b2 =>
    have h1 : b1 < 256 := hl b1 (by simp)
    have h2 : b2 < 256 := hl b2 (by simp)
    have e1 := b64Index_b64Char (b1 / 4) (by omega)
    have e2 := b64Index_b64Char (b1 % 4 * 16 + b2 / 16) (by omega)
    have e3 := b64Index_b64Char (b2 % 16 * 4) (by omega)
    have hne : b64Char (b2 % 16 * 4) ≠ '=' := (b64Char_notSpecial _ (by omega)).2.2
    simp only [base64Encode, base64DecodeQuanta]
    rw [if_neg (by simp [hne]), if_pos (by simp), e1, e2, e3]
    simp only [Option.some.injEq, List.cons.injEq, and_true]
    constructor
    · omega
    · omega
  | case4 b1 b2 b3 rest ih =>
    have h1 : b1 < 256 := hl b1 (by simp)
    have h2 : b2 < 256 := hl b2 (by simp)
    have h3 : b3 < 256 := hl b3 (by simp)
    have hrest : ∀ b ∈ rest, b < 256 := fun b hb => hl b (by simp [hb])
    have e1 := b64Index_b64Char (b1 / 4) (by omega)
    have e2 := b64Index_b64Char (b1 % 4 * 16 + b2 / 16) (by omega)
    have e3 := b64Index_b64Char (b2 % 16 * 4 + b3 / 64) (by omega)
    have e4 := b64Index_b64Char (b3 % 64) (by omega)
    have hne3 : b64Char (b2 % 16 * 4 + b3 / 64) ≠ '=' := (b64Char_notSpecial _ (by omega)).2.2
    have hne4 : b64Char (b3 % 64) ≠ '=' := (b64Char_notSpecial _ (by omega)).2.2
    show base64DecodeQuanta (_ :: _ :: _ :: _ :: base64Encode rest) = _
    rw [base64DecodeQuanta]
    rw [if_neg (by simp [hne3]), if_neg (by simp [hne4]), e1, e2, e3, e4, ih hrest]
    simp only [Option.some.injEq, List.cons.injEq, and_true]
    refine ⟨by omega, by omega, by omega⟩

theorem base64Decode_encode (l : List Nat) (hl : ∀ b ∈ l, b < 256) :
    base64Decode (base64Encode l) = some l := by
  rw [base64Decode, stripNl_base64Encode l hl, base64DecodeQuanta_encode l hl]

theorem goParseInt64_formatNat (n : Nat) (h : n < 2 ^ 63) :
    goParseInt64 (formatNat n) = some (n : Int) := by
  obtain ⟨d, rest, hd, hfmt⟩ := formatNat_head n
  have hplus : digitChar d ≠ '+' := (digitChar_notSpecial d hd).2.1
  have hminus : digitChar d ≠ '-' := (digitChar_notSpecial d hd).2.2
  rw [hfmt, goParseInt64, if_neg hplus, if_neg hminus, ← hfmt, parseDigits_formatNat]
  have hle : n ≤ 9223372036854775807 := by omega
  simp [hle]

theorem extOkAux_getLast (e : GoStr) :
    ∀ inLine, extOkAux inLine e = true → e ≠ [] → e.getLast? = some '\n' := by
  induction e with
  | nil => intro _ _ hne; exact absurd rfl hne
  | cons c cs ih =>
    intro inLine hok _
    cases cs with
    | nil =>
      rw [extOkAux] at hok
      by_cases hc : c = '\n'
      · simp [hc]
      · rw [if_neg hc] at hok
        simp [extOkAux] at hok
    | cons d ds =>
      have hcs : (d :: ds : GoStr) ≠ [] := by simp
      have htail : (c :: d :: ds : GoStr).getLast? = (d :: ds : GoStr).getLast? := by
        simp [List.getLast?]
      rw [htail]
      rw [extOkAux] at hok
      by_cases hc : c = '\n'
      · rw [if_pos hc, Bool.and_eq_true] at hok
        exact ih false hok.2 hcs
      · rw [if_neg hc] at hok
        exact ih true hok hcs

theorem extOk_getLast (e : GoStr) (he : extOk e = true) (hne : e ≠ []) :
    e.getLast? = some '\n' :=
  extOkAux_getLast e false he hne

theorem countNl_shape (a b cc d : GoStr) :
    3 ≤ countNl (a ++ '\n' :: (b ++ '\n' :: (cc ++ '\n' :: d))) := by
  simp [countNl, List.count_append, List.count_cons]
  omega

theorem hasSuffixNl_shape (a b cc d : GoStr) (hd : d = [] ∨ d.getLast? = some '\n') :
    hasSuffixNl (a ++ '\n' :: (b ++ '\n' :: (cc ++ '\n' :: d))) = true := by
  rw [hasSuffixNl, decide_eq_true_eq]
  rcases hd with h | h
  · subst h
    have hsh : a ++ '\n' :: (b ++ '\n' :: (cc ++ '\n' :: ([] : GoStr))) =
        (a ++ '\n' :: (b ++ '\n' :: cc)) ++ ['\n'] := by simp
    rw [hsh, List.getLast?_concat]
  · have hne : d ≠ [] := by intro hnil; rw [hnil] at h; simp at h
    have hsh : a ++ '\n' :: (b ++ '\n' :: (cc ++ '\n' :: d)) =
        (a ++ '\n' :: (b ++ '\n' :: (cc ++ ['\n']))) ++ d := by simp
    rw [hsh, List.getLast?_append_of_ne_nil _ hne, h]

/-- Claim C4: for every valid Checkpoint (origin with no newline, non-negative
`int64` size, 32-byte hash, well-formed extension, formatted length within the
limit), `ParseCheckpoint(MarshalCheckpoint(c))` returns exactly `c`. -/
theorem claim_C4 (c : Checkpoint) (hor : '\n' ∉ c.origin) (hn0 : 0 ≤ c.n)
    (hn1 : c.n < 2 ^ 63) (hh : c.hash.length = 32) (hhb : ∀ b ∈ c.hash, b < 256)
    (he : extOk c.extension = true) (hlen : (MarshalCheckpoint c).length ≤ 1000000) :
    parseCheckpoint (MarshalCheckpoint c) = some c := by
  have hnn : ¬ c.n < 0 := not_lt.mpr hn0
  have hfi : formatInt c.n = formatNat c.n.toNat := by rw [formatInt, if_neg hnn]
  have hnlsize : '\n' ∉ formatInt c.n := by rw [hfi]; exact formatNat_no_nl _
  have hnlb64 : '\n' ∉ base64Encode c.hash := fun hm =>
    (base64Encode_no_nl c.hash hhb '\n' hm).1 rfl
  have hsplit : splitNl4 (MarshalCheckpoint c) =
      (c.origin, formatInt c.n, base64Encode c.hash, c.extension) :=
    splitNl4_parts _ _ _ _ hor hnlsize hnlb64
  have hcount : ¬ countNl (MarshalCheckpoint c) < 3 :=
    not_lt.mpr (countNl_shape c.origin (formatInt c.n) (base64Encode c.hash) c.extension)
  have hsuffix : hasSuffixNl (MarshalCheckpoint c) = true := by
    refine hasSuffixNl_shape _ _ _ _ ?_
    by_cases he2 : c.extension = []
    · exact Or.inl he2
    · exact Or.inr (extOk_getLast _ he he2)
  have hparse : goParseInt64 (formatInt c.n) = some c.n := by
    rw [hfi, goParseInt64_formatNat c.n.toNat (by omega)]
    congr 1
    omega
  rw [parseCheckpoint]
  rw [if_neg (by push_neg; exact ⟨not_lt.mp hcount, not_lt.mp (not_lt.mpr hlen)⟩)]
  rw [if_neg (by simp [hsuffix])]
  rw [hsplit]
  simp only [hparse, base64Decode_encode c.hash hhb]
  rw [if_neg (by simp [hnn])]
  rw [if_neg (by simp [hh])]
  rw [if_neg (by simp [he])]

/-- Claim C10: `ParseCheckpoint` places no constraint on the origin line.
Whenever the length, newline-count, trailing-newline, size-field, hash-field
and extension conditions hold, parsing succeeds whatever the first line
contains, and the returned `Origin` is that first line verbatim. -/
theorem claim_C10 (t l0 l1 l2 l3 : GoStr) (n : Int) (h : List Nat)
    (hsplit : splitNl4 t = (l0, l1, l2, l3))
    (hlen : t.length ≤ 1000000) (hcount : 3 ≤ countNl t) (hsuf : hasSuffixNl t = true)
    (hn : goParseInt64 l1 = some n) (hn2 : ¬ n < 0) (hn3 : l1 = formatInt n)
    (hb : base64Decode l2 = some h) (hb2 : h.length = 32) (he : extOk l3 = true) :
    parseCheckpoint t = some ⟨l0, n, h, l3⟩ := by
  rw [parseCheckpoint]
  rw [if_neg (by push_neg; exact ⟨hcount, hlen⟩)]
  rw [if_neg (by simp [hsuf])]
  rw [hsplit]
  simp only [hn, hb]
  rw [if_neg (by simp [hn2, hn3])]
  rw [if_neg (by simp [hb2])]
  rw [if_neg (by simp [he])]

theorem goParseInt64_formatNat_eq (m : Nat) :
    goParseInt64 (formatNat m) =
      if m ≤ 2 ^ 63 - 1 then some (m : Int) else none := by
  obtain ⟨d, rest, hd, hfmt⟩ := formatNat_head m
  have hplus : digitChar d ≠ '+' := (digitChar_notSpecial d hd).2.1
  have hminus : digitChar d ≠ '-' := (digitChar_notSpecial d hd).2.2
  rw [hfmt, goParseInt64, if_neg hplus, if_neg hminus, ← hfmt, parseDigits_formatNat]

theorem specSizeFieldOk64_iff (s : GoStr) :
    specSizeFieldOk64 s = true ↔
      ∃ n : Int, goParseInt64 s = some n ∧ ¬ n < 0 ∧ s = formatInt n := by
  constructor
  · intro hok
    rw [specSizeFieldOk64] at hok
    cases hp : parseDigits s with
    | none => rw [hp] at hok; simp at hok
    | some m =>
      rw [hp, Bool.and_eq_true, decide_eq_true_eq, decide_eq_true_eq] at hok
      obtain ⟨hs, hm⟩ := hok
      refine ⟨(m : Int), ?_, by simp, ?_⟩
      · rw [hs, goParseInt64_formatNat_eq, if_pos (by omega)]
      · rw [formatInt, if_neg (by simp), Int.toNat_natCast, ← hs]
  · rintro ⟨n, hparse, hneg, hfmt⟩
    have hfi : formatInt n = formatNat n.toNat := by
      rw [formatInt, if_neg hneg]
    rw [hfi] at hfmt
    rw [hfmt, goParseInt64_formatNat_eq] at hparse
    have hle : n.toNat ≤ 2 ^ 63 - 1 := by
      by_contra hgt
      rw [if_neg hgt] at hparse
      exact Option.noConfusion hparse
    rw [specSizeFieldOk64, hfmt, parseDigits_formatNat]
    simp only [Bool.and_eq_true, decide_eq_true_eq]
    exact ⟨trivial, by omega⟩

/-- Claim C5 (amended): `ParseCheckpoint` fails exactly when the text is too
long, has fewer than three newlines or no trailing newline, the size line is
not the canonical decimal of a non-negative integer representable in `int64`,
the hash line is not base64 for exactly 32 bytes, or the remainder has an
empty or unterminated line. -/
theorem claim_C5_amended (t : GoStr) :
    parseCheckpoint t = none ↔ specMalformedAmended t = true := by
  rw [parseCheckpoint, specMalformedAmended]
  by_cases h1a : countNl t < 3
  · rw [if_pos (Or.inl h1a)]; simp [h1a]
  by_cases h1b : 1000000 < t.length
  · rw [if_pos (Or.inr h1b)]; simp [h1b]
  rw [if_neg (by push_neg; exact ⟨not_lt.mp h1a, not_lt.mp h1b⟩)]
  by_cases h2 : hasSuffixNl t = true
  case neg =>
    rw [if_pos (by simp [h2])]
    rw [Bool.not_eq_true] at h2
    simp [h1a, h1b, h2]
  rw [if_neg (by simp [h2])]
  rcases hsp : splitNl4 t with ⟨l0, l1, l2, l3⟩
  simp only [hsp, h1a, h1b, h2, decide_False, Bool.not_true, Bool.false_or]
  cases hg : goParseInt64 l1 with
  | none =>
    have hsf : specSizeFieldOk64 l1 = false := by
      cases hsf0 : specSizeFieldOk64 l1 with
      | false => rfl
      | true =>
        obtain ⟨n2, hn2, _, _⟩ := (specSizeFieldOk64_iff l1).mp hsf0
        rw [hg] at hn2
        exact absurd hn2 (by simp)
    simp [hsf]
  | some n =>
    dsimp only
    by_cases hcond : n < 0 ∨ l1 ≠ formatInt n
    · rw [if_pos hcond]
      have hsf : specSizeFieldOk64 l1 = false := by
        cases hsf0 : specSizeFieldOk64 l1 with
        | false => rfl
        | true =>
          obtain ⟨n2, hn2, hp2, hf2⟩ := (specSizeFieldOk64_iff l1).mp hsf0
          rw [hg] at hn2
          injection hn2 with hne
          subst hne
          rcases hcond with hx | hx
          · exact absurd hx hp2
          · exact absurd hf2 hx
      simp [hsf]
    · rw [if_neg hcond]
      push_neg at hcond
      have hsf : specSizeFieldOk64 l1 = true :=
        (specSizeFieldOk64_iff l1).mpr ⟨n, hg, not_lt.mpr hcond.1, hcond.2⟩
      simp only [hsf, Bool.not_true, Bool.false_or]
      cases hb : base64Decode l2 with
      | none =>
        have hhf : specHashFieldOk l2 = false := by rw [specHashFieldOk, hb]
        simp [hhf]
      | some hby =>
        dsimp only
        have hhf : specHashFieldOk l2 = decide (hby.length = 32) := by
          rw [specHashFieldOk, hb]
        by_cases h32 : hby.length = 32
        · rw [if_neg (by simp [h32])]
          simp only [hhf, h32, decide_True, Bool.not_true, Bool.false_or]
          by_cases hex : extOk l3 = true
          · rw [if_neg (by simp [hex])]
            simp [hex]
          · rw [if_pos (by simp [hex])]
            rw [Bool.not_eq_true] at hex
            simp [hex]
        · rw [if_pos h32]
          simp [hhf, h32]

/-- Claim C5 counterexample: the text whose size line is the canonical decimal
of `2^63` satisfies none of the malformedness conditions the claim lists —
the size line is the canonical decimal of a non-negative integer — yet
`ParseCheckpoint` rejects it, because `strconv.ParseInt(_, 10, 64)` overflows. -/
theorem claim_C5_counterexample :
    parseCheckpoint textOverflow = none ∧ specMalformedClaim textOverflow = false := by
  constructor
  · rfl
  · rfl

/-- Claim C9: when the stored size equals `old_size == 0` the consistency
step accepts the request with an empty proof regardless of the stored hash
(acceptance does not depend on `old_hash`), and `old_size > new_size` is
rejected as `BadRequest` before any store lookup (the result does not depend
on the store). -/
theorem claim_C9 (ct : List (List Nat) → Int → List Nat → Int → List Nat → Bool)
    (s s2 : Store) (origin : GoStr) (newSize : Int) (newHash : List Nat)
    (proofHashes : List (List Nat)) :
    (∀ hash, s origin = some (0, hash) → 0 ≤ newSize →
      checkConsistency ct s origin 0 newSize newHash [] = Except.ok ()) ∧
    (∀ hash hash2, s origin = some (0, hash) → s2 origin = some (0, hash2) →
      checkConsistency ct s origin 0 newSize newHash proofHashes =
        checkConsistency ct s2 origin 0 newSize newHash proofHashes) ∧
    (∀ oldSize : Int, newSize < oldSize →
      checkConsistency ct s origin oldSize newSize newHash proofHashes =
        Except.error WErr.badRequest ∧
      checkConsistency ct s origin oldSize newSize newHash proofHashes =
        checkConsistency ct s2 origin oldSize newSize newHash proofHashes) := by
  refine ⟨?_, ?_, ?_⟩
  · intro hash hs hns
    have hgl : getLog s origin = Except.ok ((0 : Int), hash) := by rw [getLog, hs]
    rw [checkConsistency, if_neg (by omega : ¬ (0 : Int) > newSize), hgl]
    simp
  · intro hash hash2 hs hs2
    have hgl : getLog s origin = Except.ok ((0 : Int), hash) := by rw [getLog, hs]
    have hgl2 : getLog s2 origin = Except.ok ((0 : Int), hash2) := by rw [getLog, hs2]
    rw [checkConsistency, checkConsistency, hgl, hgl2]
    by_cases h : (0 : Int) > newSize
    · rw [if_pos h, if_pos h]
    · rw [if_neg h, if_neg h]
      simp
  · intro oldSize hlt
    constructor
    · rw [checkConsistency, if_pos (by omega)]
    · rw [checkConsistency, checkConsistency, if_pos (by omega), if_pos (by omega)]

/-- Claim C1: for a request that passes origin lookup and signature
verification (and reaches the consistency stage), a stored size differing
from `old_size` at the consistency check, or a conditional UPDATE that
changes zero rows at commit, yields a Conflict carrying the current stored
size, served as HTTP 409 with `Content-Type: text/x.tlog.size` and body
`"<size>\n"`; the result is an error, so no cosignature is emitted, and the
store is unchanged. -/
theorem claim_C1 (env : PipelineEnv) (s1 s2 : Store)
    (body pre noteBytes l0 sizeStr text : GoStr) (preRest : List GoStr)
    (oldSize : Int) (proofHashes : List (List Nat)) (c : Checkpoint)
    (h1 : cut2Nl body = some (pre, noteBytes))
    (h2 : splitNlAll pre = l0 :: preRest)
    (h3 : cutOld l0 = some sizeStr)
    (h4 : goParseInt64 sizeStr = some oldSize)
    (h5 : ¬ oldSize < 0)
    (h6 : preRest.mapM env.parseProofHash = some proofHashes)
    (h7 : env.keysOk (firstLine noteBytes) = true)
    (h8 : env.openNote noteBytes = NoteOpen.verified text)
    (h9 : parseCheckpoint text = some c)
    (h10 : oldSize ≤ c.n) :
    (∀ ks kh, s1 c.origin = some (ks, kh) → ks ≠ oldSize →
      processAddCheckpointRequest env s1 s2 body = (Except.error (WErr.conflict ks), s2) ∧
      (serveAddCheckpoint env s1 s2 body).1 =
        ⟨409, some "text/x.tlog.size".data, formatInt ks ++ ['\n']⟩) ∧
    (checkConsistency env.checkTree s1 c.origin oldSize c.n c.hash proofHashes =
        Except.ok () →
      ∀ ks2 kh2, s2 c.origin = some (ks2, kh2) → ks2 ≠ oldSize →
      processAddCheckpointRequest env s1 s2 body = (Except.error (WErr.conflict ks2), s2) ∧
      (serveAddCheckpoint env s1 s2 body).1 =
        ⟨409, some "text/x.tlog.size".data, formatInt ks2 ++ ['\n']⟩) := by
  constructor
  · intro ks kh hks hne
    have hcc : checkConsistency env.checkTree s1 c.origin oldSize c.n c.hash proofHashes =
        Except.error (WErr.conflict ks) := by
      have hgl : getLog s1 c.origin = Except.ok (ks, kh) := by rw [getLog, hks]
      rw [checkConsistency, if_neg (not_lt.mpr h10), hgl]
      simp [hne]
    have hp : processAddCheckpointRequest env s1 s2 body =
        (Except.error (WErr.conflict ks), s2) := by
      rw [processAddCheckpointRequest, h1]
      simp only [h2, h3, h4, h6, h7, h8, h9, hcc]
      rw [if_neg h5]
      simp
    refine ⟨hp, ?_⟩
    rw [serveAddCheckpoint, hp]
  · intro hcc ks2 kh2 hks2 hne2
    have hpersist : persistTreeHead s2 c.origin oldSize c.n c.hash =
        (s2, Except.error (WErr.conflict ks2)) := by
      have hcas : casUpdate s2 c.origin oldSize c.n c.hash = (s2, 0) := by
        rw [casUpdate, hks2]
        simp [hne2]
      rw [persistTreeHead, hcas]
      have hgl : getLog s2 c.origin = Except.ok (ks2, kh2) := by rw [getLog, hks2]
      simp [hgl]
    have hp : processAddCheckpointRequest env s1 s2 body =
        (Except.error (WErr.conflict ks2), s2) := by
      rw [processAddCheckpointRequest, h1]
      simp only [h2, h3, h4, h6, h7, h8, h9, hcc, hpersist]
      rw [if_neg h5]
      simp
    refine ⟨hp, ?_⟩
    rw [serveAddCheckpoint, hp]

theorem checkConsistency_le (ct : List (List Nat) → Int → List Nat → Int → List Nat → Bool)
    (s : Store) (origin : GoStr) (oldSize newSize : Int) (nh : List Nat)
    (pf : List (List Nat))
    (h : checkConsistency ct s origin oldSize newSize nh pf = Except.ok ()) :
    oldSize ≤ newSize := by
  by_contra hgt
  rw [checkConsistency, if_pos (by omega)] at h
  exact Except.noConfusion h

theorem casUpdate_mono (s : Store) (origin : GoStr) (oldSize newSize : Int)
    (nh : List Nat) (hle : oldSize ≤ newSize) (o : GoStr) (sz : Int) (h : List Nat)
    (hs : s o = some (sz, h)) :
    ∃ sz2 h2, (casUpdate s origin oldSize newSize nh).1 o = some (sz2, h2) ∧ sz ≤ sz2 := by
  rw [casUpdate]
  cases hso : s origin with
  | none => exact ⟨sz, h, hs, le_refl sz⟩
  | some r =>
    obtain ⟨szo, ho⟩ := r
    dsimp only
    by_cases heq : szo = oldSize
    · rw [if_pos heq]
      dsimp
      by_cases ho2 : o = origin
      · subst ho2
        rw [if_pos rfl]
        rw [hs] at hso
        injection hso with hpair
        have hsz : sz = szo := by
          have := congrArg Prod.fst hpair
          simpa using this
        exact ⟨newSize, nh, rfl, by omega⟩
      · rw [if_neg ho2]
        exact ⟨sz, h, hs, le_refl sz⟩
    · rw [if_neg heq]
      exact ⟨sz, h, hs, le_refl sz⟩

theorem persistTreeHead_store (s : Store) (origin : GoStr) (oldSize newSize : Int)
    (nh : List Nat) :
    (persistTreeHead s origin oldSize newSize nh).1 = (casUpdate s origin oldSize newSize nh).1 := by
  rw [persistTreeHead]
  rcases hc : casUpdate s origin oldSize newSize nh with ⟨s3, changes⟩
  dsimp
  by_cases h : changes ≠ 1
  · rw [if_pos h]
    cases getLog s3 origin with
    | error e => rfl
    | ok r => obtain ⟨a, b⟩ := r; rfl
  · rw [if_neg h]

theorem processStore_mono (env : PipelineEnv) (s1 s2 : Store) (body : GoStr)
    (o : GoStr) (sz : Int) (h : List Nat) (hs : s2 o = some (sz, h)) :
    ∃ sz2 h2, (processAddCheckpointRequest env s1 s2 body).2 o = some (sz2, h2) ∧ sz ≤ sz2 := by
  have htriv : ∃ sz2 h2, s2 o = some (sz2, h2) ∧ sz ≤ sz2 := ⟨sz, h, hs, le_refl sz⟩
  rw [processAddCheckpointRequest]
  split
  · exact htriv
  split
  · exact htriv
  split
  · exact htriv
  split
  · exact htriv
  split
  · exact htriv
  split
  · exact htriv
  split
  · exact htriv
  split
  · exact htriv
  · exact htriv
  split
  · exact htriv
  split
  · exact htriv
  split
  · rename_i x2 c hpc x1 hcheck x s3 e hper
    have hle := checkConsistency_le env.checkTree s1 c.origin _ _ c.hash _ hcheck
    have h2 := congrArg Prod.fst hper
    dsimp at h2
    rw [persistTreeHead_store] at h2
    dsimp
    rw [← h2]
    exact casUpdate_mono _ _ _ _ _ hle o sz h hs
  · rename_i x2 c hpc x1 hcheck x s3 hper
    have hle := checkConsistency_le env.checkTree s1 c.origin _ _ c.hash _ hcheck
    have h2 := congrArg Prod.fst hper
    dsimp at h2
    rw [persistTreeHead_store] at h2
    dsimp
    rw [← h2]
    exact casUpdate_mono _ _ _ _ _ hle o sz h hs

/-- Claim C2: across any sequence of add-checkpoint requests, with each
request checking against an arbitrarily stale snapshot (any interleaving of
check and commit), the stored tree size of every origin never decreases:
every commit goes through the conditional UPDATE, and the pipeline rejects
`old_size > new_size` before committing. -/
theorem claim_C2 (env : PipelineEnv) (reqs : List (Store × GoStr)) (s : Store)
    (o : GoStr) (sz : Int) (h : List Nat) (hs : s o = some (sz, h)) :
    ∃ sz2 h2, runRequests env reqs s o = some (sz2, h2) ∧ sz ≤ sz2 := by
  induction reqs generalizing s sz h with
  | nil => exact ⟨sz, h, hs, le_refl sz⟩
  | cons req rest ih =>
    obtain ⟨s1, body⟩ := req
    obtain ⟨szm, hm, hsm, hle⟩ := processStore_mono env s1 s body o sz h hs
    obtain ⟨sz2, h2, hs2, hle2⟩ :=
      ih ((processAddCheckpointRequest env s1 s body).2) szm hm hsm
    refine ⟨sz2, h2, ?_, by omega⟩
    rw [runRequests]
    exact hs2

theorem persistTreeHead_ok (s : Store) (origin : GoStr) (oldSize newSize : Int)
    (nh : List Nat) (s4 : Store)
    (hok : persistTreeHead s origin oldSize newSize nh = (s4, Except.ok ())) :
    ∃ szo ho, s origin = some (szo, ho) ∧ szo = oldSize ∧
      s4 = fun o => if o = origin then some (newSize, nh) else s o := by
  rw [persistTreeHead] at hok
  rcases hc : casUpdate s origin oldSize newSize nh with ⟨s5, changes⟩
  rw [hc] at hok
  dsimp at hok
  by_cases hch : changes ≠ 1
  · rw [if_pos hch] at hok
    cases hg : getLog s5 origin with
    | error e => rw [hg] at hok; simp at hok
    | ok r =>
      obtain ⟨a, b⟩ := r
      rw [hg] at hok
      simp at hok
  · rw [if_neg hch] at hok
    rw [Prod.mk.injEq] at hok
    push_neg at hch
    rw [casUpdate] at hc
    cases hso : s origin with
    | none =>
      rw [hso] at hc
      rw [Prod.mk.injEq] at hc
      omega
    | some r2 =>
      obtain ⟨szo, ho⟩ := r2
      rw [hso] at hc
      dsimp at hc
      by_cases hsz : szo = oldSize
      · rw [if_pos hsz] at hc
        rw [Prod.mk.injEq] at hc
        exact ⟨szo, ho, rfl, hsz, by rw [← hok.1, ← hc.1]⟩
      · rw [if_neg hsz] at hc
        rw [Prod.mk.injEq] at hc
        omega

/-- Claim C3 (amended): every successful add-checkpoint request (one that
returns a cosignature) advances exactly one origin from its previously
stored size to a size greater than or equal to it — strictly greater except
for resubmits whose `new_size` equals `old_size` — and leaves every other
row unchanged. -/
theorem claim_C3_amended (env : PipelineEnv) (s1 s2 : Store) (body : GoStr)
    (r : GoStr) (s3 : Store)
    (hp : processAddCheckpointRequest env s1 s2 body = (Except.ok r, s3)) :
    ∃ origin oldS newS oldH newH, s2 origin = some (oldS, oldH) ∧
      s3 origin = some (newS, newH) ∧ oldS ≤ newS ∧
      ∀ o, o ≠ origin → s3 o = s2 o := by
  rw [processAddCheckpointRequest] at hp
  split at hp
  · simp at hp
  split at hp
  · simp at hp
  split at hp
  · simp at hp
  split at hp
  · simp at hp
  split at hp
  · simp at hp
  split at hp
  · simp at hp
  split at hp
  · simp at hp
  split at hp
  · simp at hp
  · simp at hp
  split at hp
  · simp at hp
  split at hp
  · simp at hp
  split at hp
  · simp at hp
  rename_i x2 c hpc x1 hcheck x s3b hper
  rw [Prod.mk.injEq] at hp
  obtain ⟨szo, ho, hso, hsz, hs4⟩ := persistTreeHead_ok _ _ _ _ _ _ hper
  have hle := checkConsistency_le env.checkTree s1 c.origin _ _ c.hash _ hcheck
  refine ⟨c.origin, szo, c.n, ho, c.hash, hso, ?_, by omega, ?_⟩
  · rw [← hp.2, hs4]
    simp
  · intro o hne
    rw [← hp.2, hs4]
    simp [hne]

/-- Claim C3 counterexample: resubmitting the already-committed size-3 tree
head (`old 3`, new size 3, matching hash, empty proof per the 4.D contract)
succeeds — a cosignature is returned — while the stored size stays at 3, so
a successful request does not store a size strictly greater than the
previously stored one. -/
theorem claim_C3_counterexample :
    (processAddCheckpointRequest envC3 stSize3 stSize3 bodyResubmit).1 =
      Except.ok (envC3.signedSigs text3) ∧
    stSize3 origin0 = some (3, zeroHash) ∧
    (processAddCheckpointRequest envC3 stSize3 stSize3 bodyResubmit).2 origin0 =
      some (3, zeroHash) := by
  refine ⟨rfl, rfl, rfl⟩

/-- Claim C8 (code bug): a request whose note signature verifies but whose
note body fails checkpoint parsing is rejected with the raw unmapped
"malformed checkpoint" error — `processAddCheckpointRequest` returns the
`tlogx.ParseCheckpoint` error verbatim instead of `errBadRequest` — and so
`serveAddCheckpoint` serves HTTP 500, not the 400 the specification assigns. -/
theorem claim_C8_bug :
    (processAddCheckpointRequest envC8 stSize0 stSize0 bodyBad).1 =
      Except.error WErr.malformedCheckpoint ∧
    (serveAddCheckpoint envC8 stSize0 stSize0 bodyBad).1.status = 500 ∧
    (serveAddCheckpoint envC8 stSize0 stSize0 bodyBad).1.status ≠ 400 := by
  refine ⟨rfl, rfl, by decide⟩

theorem readBeU64_beU64 (t : Nat) (h : t < 2 ^ 64) : readBeU64 (beU64 t) = t := by
  rw [beU64, readBeU64]
  norm_num [List.foldl]
  omega

/-- Claim C6: for every body that parses as a checkpoint, the cosignature
signer signs exactly the canonical string
`"cosignature/v1\ntime <t>\n<origin>\n<size>\n<base64(hash)>\n"` and emits
`BE_u64(t) ‖ raw_sig`, 72 bytes when the Ed25519 signature is 64 bytes; the
extension lines affect neither the signed string nor the blob. -/
theorem claim_C6 (edSign : GoStr → List Nat) (t : Nat) (msg : GoStr) (c : Checkpoint)
    (hpc : parseCheckpoint msg = some c)
    (hlen : ∀ m, (edSign m).length = 64) :
    cosigSign edSign t msg =
      some (beU64 t ++ edSign ("cosignature/v1\ntime ".data ++ formatNat t ++
        '\n' :: (c.origin ++ '\n' :: (formatInt c.n ++ '\n' ::
          (base64Encode c.hash ++ ['\n']))))) ∧
    (∀ blob, cosigSign edSign t msg = some blob → blob.length = 72) ∧
    (∀ msg2 c2, parseCheckpoint msg2 = some c2 → c2.origin = c.origin →
      c2.n = c.n → c2.hash = c.hash →
      cosigSign edSign t msg2 = cosigSign edSign t msg) := by
  have hfmt : formatCosignatureV1 t msg =
      some ("cosignature/v1\ntime ".data ++ formatNat t ++
        '\n' :: (c.origin ++ '\n' :: (formatInt c.n ++ '\n' ::
          (base64Encode c.hash ++ ['\n'])))) := by
    rw [formatCosignatureV1, hpc]
  refine ⟨?_, ?_, ?_⟩
  · rw [cosigSign, hfmt]
  · intro blob hb
    rw [cosigSign, hfmt] at hb
    injection hb with hb
    rw [← hb, List.length_append, hlen]
    rfl
  · intro msg2 c2 hpc2 ho hn hh
    rw [cosigSign, cosigSign, formatCosignatureV1, formatCosignatureV1, hpc, hpc2]
    dsimp only
    rw [ho, hn, hh]

/-- Claim C7: the verifier accepts every blob the signer produced for a valid
checkpoint body, using the timestamp embedded in the blob, and rejects every
blob whose length is not exactly 72 bytes. -/
theorem claim_C7 (edSign : GoStr → List Nat) (edVerify : GoStr → List Nat → Bool)
    (t : Nat) (msg : GoStr)
    (hcorr : ∀ m, edVerify m (edSign m) = true)
    (hlen : ∀ m, (edSign m).length = 64)
    (ht : t < 2 ^ 64)
    (hpc : (parseCheckpoint msg).isSome = true) :
    (∀ blob, cosigSign edSign t msg = some blob →
      cosigVerify edVerify msg blob = true) ∧
    (∀ blob, blob.length ≠ 72 → cosigVerify edVerify msg blob = false) := by
  constructor
  · intro blob hb
    obtain ⟨c, hc⟩ := Option.isSome_iff_exists.mp hpc
    have hfmt : formatCosignatureV1 t msg =
        some ("cosignature/v1\ntime ".data ++ formatNat t ++
          '\n' :: (c.origin ++ '\n' :: (formatInt c.n ++ '\n' ::
            (base64Encode c.hash ++ ['\n'])))) := by
      rw [formatCosignatureV1, hc]
    rw [cosigSign, hfmt] at hb
    injection hb with hb
    have hbe : (beU64 t).length = 8 := rfl
    have hblen : blob.length = 72 := by
      rw [← hb, List.length_append, hbe, hlen]
    have htake : blob.take 8 = beU64 t := by
      rw [← hb, ← hbe, List.take_left]
    have hdrop : blob.drop 8 =
        edSign ("cosignature/v1\ntime ".data ++ formatNat t ++
          '\n' :: (c.origin ++ '\n' :: (formatInt c.n ++ '\n' ::
            (base64Encode c.hash ++ ['\n'])))) := by
      rw [← hb, ← hbe, List.drop_left]
    rw [cosigVerify, if_neg (by omega), htake, readBeU64_beU64 t ht, hfmt]
    dsimp only
    rw [hdrop]
    exact hcorr _
  · intro blob hlb
    rw [cosigVerify, if_pos hlb]

/-- Witness for claim C1, at the conflict scenario `old 3` against stored
size 5. -/
theorem claim_C1_witness :
    processAddCheckpointRequest envC1 stSize5 stSize5 bodyOld3 =
      (Except.error (WErr.conflict 5), stSize5) ∧
    (serveAddCheckpoint envC1 stSize5 stSize5 bodyOld3).1 =
      ⟨409, some "text/x.tlog.size".data, formatInt 5 ++ ['\n']⟩ :=
  (claim_C1 envC1 stSize5 stSize5 bodyOld3 "old 3".data text7 "old 3".data "3".data
    text7 [] 3 [] ⟨origin0, 7, zeroHash, []⟩ rfl rfl rfl rfl (by decide) rfl rfl rfl rfl
    (by decide)).1 5 zeroHash rfl (by decide)

/-- Witness for claim C2, with a single conflicting request against stored
size 5. -/
theorem claim_C2_witness :
    ∃ sz2 h2, runRequests envC1 [(stSize5, bodyOld3)] stSize5 origin0 =
      some (sz2, h2) ∧ (5 : Int) ≤ sz2 :=
  claim_C2 envC1 [(stSize5, bodyOld3)] stSize5 origin0 5 zeroHash rfl

/-- Witness for claim C3 (amended), at the successful idempotent resubmit. -/
theorem claim_C3_witness :
    ∃ origin oldS newS oldH newH, stSize3 origin = some (oldS, oldH) ∧
      (fun o => if o = origin0 then some ((3 : Int), zeroHash) else stSize3 o) origin =
        some (newS, newH) ∧ oldS ≤ newS ∧
      ∀ o, o ≠ origin →
        (fun o => if o = origin0 then some ((3 : Int), zeroHash) else stSize3 o) o =
          stSize3 o :=
  claim_C3_amended envC3 stSize3 stSize3 bodyResubmit sigLine0
    (fun o => if o = origin0 then some ((3 : Int), zeroHash) else stSize3 o) rfl

/-- Witness for claim C4, at a concrete checkpoint of size 2. -/
theorem claim_C4_witness :
    parseCheckpoint (MarshalCheckpoint ⟨origin0, 2, zeroHash, []⟩) =
      some ⟨origin0, 2, zeroHash, []⟩ :=
  claim_C4 ⟨origin0, 2, zeroHash, []⟩ (by decide) (by decide) (by decide) rfl
    (by decide) rfl (by decide)

/-- Witness for claim C6: the blob for a concrete checkpoint body has exactly
72 bytes. -/
theorem claim_C6_witness : (beU64 5 ++ List.replicate 64 0).length = 72 :=
  (claim_C6 (fun _ => List.replicate 64 0) 5 text2 ⟨origin0, 2, zeroHash, []⟩ rfl
    (fun _ => rfl)).2.1 (beU64 5 ++ List.replicate 64 0) rfl

/-- Witness for claim C7: the verifier accepts a concrete signed blob. -/
theorem claim_C7_witness :
    cosigVerify (fun _ s => decide (s = List.replicate 64 0)) text2
      (beU64 5 ++ List.replicate 64 0) = true :=
  (claim_C7 (fun _ => List.replicate 64 0) (fun _ s => decide (s = List.replicate 64 0))
    5 text2 (fun _ => by simp) (fun _ => rfl) (by decide) rfl).1
    (beU64 5 ++ List.replicate 64 0) rfl

/-- Witness for claim C9: a fresh log accepts `old 0` with an empty proof. -/
theorem claim_C9_witness :
    checkConsistency ctModel stSize0 origin0 0 2 zeroHash [] = Except.ok () :=
  (claim_C9 ctModel stSize0 stSize0 origin0 2 zeroHash []).1 zeroHash rfl (by decide)

/-- Witness for claim C10: an origin line containing spaces and a plus sign
parses, and is returned verbatim. -/
theorem claim_C10_witness :
    parseCheckpoint ("a +b c\n2\n".data ++ base64Encode zeroHash ++ ['\n']) =
      some ⟨"a +b c".data, 2, zeroHash, []⟩ :=
  claim_C10 ("a +b c\n2\n".data ++ base64Encode zeroHash ++ ['\n']) "a +b c".data
    "2".data (base64Encode zeroHash) [] 2 zeroHash rfl (by decide) (by decide) rfl rfl
    (by decide) rfl rfl rfl rfl

theorem cutNl_some_decomp (s : GoStr) :
    ∀ b a, cutNl s = some (b, a) → s = b ++ '\n' :: a ∧ '\n' ∉ b := by
  induction s with
  | nil => intro b a h; simp [cutNl] at h
  | cons c cs ih =>
    intro b a h
    rw [cutNl] at h
    by_cases hc : c = '\n'
    · rw [if_pos hc] at h
      simp only [Option.some.injEq, Prod.mk.injEq] at h
      obtain ⟨hb, ha⟩ := h
      subst hb
      subst ha
      simp [hc]
    · rw [if_neg hc] at h
      cases h2 : cutNl cs with
      | none => rw [h2] at h; simp at h
      | some p =>
        obtain ⟨b2, a2⟩ := p
        rw [h2] at h
        simp only [Option.some.injEq, Prod.mk.injEq] at h
        obtain ⟨hb, ha⟩ := h
        subst hb
        subst ha
        obtain ⟨hdec, hmem⟩ := ih b2 a2 h2
        constructor
        · rw [hdec]; rfl
        · simp only [List.mem_cons, not_or]
          exact ⟨fun hx => hc hx.symm, hmem⟩

theorem cutNl_none_notMem (s : GoStr) (h : cutNl s = none) : '\n' ∉ s := by
  induction s with
  | nil => simp
  | cons c cs ih =>
    rw [cutNl] at h
    by_cases hc : c = '\n'
    · rw [if_pos hc] at h; simp at h
    · rw [if_neg hc] at h
      cases h2 : cutNl cs with
      | none =>
        simp only [List.mem_cons, not_or]
        exact ⟨fun hx => hc hx.symm, ih h2⟩
      | some p => obtain ⟨b2, a2⟩ := p; rw [h2] at h; simp at h

theorem extOkAux_over_line (b : GoStr) :
    ∀ a, '\n' ∉ b → extOkAux true (b ++ '\n' :: a) = extOkAux false a := by
  induction b with
  | nil => intro a _; simp [extOkAux]
  | cons c b2 ih =>
    intro a hb
    have hc : c ≠ '\n' := fun hx => hb (by simp [hx])
    have hb2 : '\n' ∉ b2 := fun hx => hb (by simp [hx])
    rw [List.cons_append, extOkAux, if_neg hc]
    exact ih a hb2

/-- Certificate that `extOk` is the `strings.Cut` loop of `ParseCheckpoint`:
on a string with a newline it checks the first line non-empty and recurses on
the remainder. -/
theorem extOk_loop_some (rest b a : GoStr) (h : cutNl rest = some (b, a)) :
    extOk rest = if b = [] then false else extOk a := by
  obtain ⟨hdec, hnb⟩ := cutNl_some_decomp rest b a h
  subst hdec
  by_cases hb : b = []
  · subst hb
    simp [extOk, extOkAux]
  · rw [if_neg hb]
    cases b with
    | nil => exact absurd rfl hb
    | cons c b2 =>
      have hc : c ≠ '\n' := fun hx => hnb (by simp [hx])
      have hb2 : '\n' ∉ b2 := fun hx => hnb (by simp [hx])
      rw [extOk, List.cons_append, extOkAux, if_neg hc]
      exact extOkAux_over_line b2 a hb2

theorem extOkAux_no_nl (cs : GoStr) :
    ∀ inLine, '\n' ∉ cs → cs ≠ [] → extOkAux inLine cs = false := by
  induction cs with
  | nil => intro _ _ hne; exact absurd rfl hne
  | cons c cs2 ih =>
    intro inLine hmem _
    have hc : c ≠ '\n' := fun hx => hmem (by simp [hx])
    have hcs : '\n' ∉ cs2 := fun hx => hmem (by simp [hx])
    rw [extOkAux, if_neg hc]
    cases cs2 with
    | nil => rfl
    | cons d ds => exact ih true hcs (by simp)

/-- Certificate that `extOk` fails on a non-empty remainder without a
newline (`found == false` in the Go loop). -/
theorem extOk_loop_none (rest : GoStr) (h : cutNl rest = none) (hne : rest ≠ []) :
    extOk rest = false :=
  extOkAux_no_nl rest false (cutNl_none_notMem rest h) hne

/-- Certificate that `splitNlAll` is `strings.Split(s, "\n")`: a string
without a newline is a single field. -/
theorem splitNlAll_cut_none (s : GoStr) (h : cutNl s = none) : splitNlAll s = [s] := by
  have hmem : '\n' ∉ s := cutNl_none_notMem s h
  clear h
  induction s with
  | nil => rfl
  | cons c cs ih =>
    have hc : c ≠ '\n' := fun hx => hmem (by simp [hx])
    have hcs : '\n' ∉ cs := fun hx => hmem (by simp [hx])
    rw [splitNlAll.eq_def]
    dsimp only
    rw [if_neg hc, ih hcs]

/-- Certificate that `splitNlAll` is `strings.Split(s, "\n")`: the field
before the first newline, followed by the split of the remainder. -/
theorem splitNlAll_cut_some (s b a : GoStr) (h : cutNl s = some (b, a)) :
    splitNlAll s = b :: splitNlAll a := by
  obtain ⟨hdec, hnb⟩ := cutNl_some_decomp s b a h
  subst hdec
  clear h
  induction b with
  | nil => rw [splitNlAll.eq_def]; simp
  | cons c b2 ih =>
    have hc : c ≠ '\n' := fun hx => hnb (by simp [hx])
    have hb2 : '\n' ∉ b2 := fun hx => hnb (by simp [hx])
    rw [List.cons_append, splitNlAll.eq_def]
    dsimp only
    rw [if_neg hc, ih hb2]
